import Mathlib

/-!
Verification of the STX supply-schedule generator (`src/index.ts`).

The script reads, from a ledger database:
  * the current (latest) block height,
  * the list of vesting-release block heights (ascending),
  * the list of distinct lock-transfer-unlock block heights (ascending),
  * on demand, the net unlocked balance as of a block height, and the total
    vested amount in a height interval.

It then walks block heights from the current height up to
`max(last lock height, last vesting height) + 5` (exclusive), producing one
`BlockTotal` entry per block, re-querying only at heights where a change is
known to occur and carrying values forward otherwise; it validates the
sequence (consecutive heights, non-decreasing totals), prunes entries whose
total is unchanged, asserts the final supply renders to a fixed constant, and
writes a CSV.

The database is embedded as a `Store` structure whose query operations are
abstract functions; `Date.now()` is the extra `currentDate` input.  BigInt
values are embedded as `Int`.  The only JavaScript partiality in the loop is
the unguarded `totals[totals.length - 1]` read, embedded as an `Option`
access; `new Date(..).toISOString()` is an injective rendering of its epoch
argument, so the `date_time` field carries the epoch seconds value itself.
-/

namespace Supply

/-- One row of the produced series (`totals` array element in `run`). -/
structure BlockTotal where
  block_height : Nat
  queried_micro_stx : Int
  vested_micro_stx : Int
  total_calculated : Int
  /-- Epoch seconds backing the `date_time` ISO string. -/
  date_time : Nat
deriving Repr, DecidableEq

/-- The ledger database boundary: the results of the four read-only queries
issued by `run` (`STX_LATEST_BLOCK_HEIGHT_QUERY`, `STX_VESTED_BY_BLOCK_QUERY`,
`LOCK_TRANSFER_BLOCK_IDS_QUERY`, and the two parameterized aggregates). -/
structure Store where
  currentBlockHeight : Nat
  /-- Heights from `STX_VESTED_BY_BLOCK_QUERY`, ascending. -/
  vestingBlockHeights : List Nat
  /-- Heights from `LOCK_TRANSFER_BLOCK_IDS_QUERY`, ascending distinct. -/
  lockTransferBlockHeights : List Nat
  /-- Query `STX_TOTAL_VESTED_BY_BLOCK_QUERY` with parameters
  `(block_height, floor_height)`. -/
  totalVestedAsOf : Nat → Nat → Int
  /-- Query `STX_TOTAL_AT_BLOCK_QUERY` with parameter `block_height`. -/
  netUnlockedBalanceAsOf : Nat → Int

/-- One iteration of the accumulator loop body (index.ts lines 65-92):
builds the entry for `blockHeight` from the store and the entries produced so
far.  Returns `none` exactly when the JavaScript code would crash reading
`totals[totals.length - 1].queried_micro_stx` on an empty array (the vested
carry-forward uses `?.` and `?? 0n`, the queried carry-forward does not). -/
def stepEntry (s : Store) (currentDate : Nat) (blockHeight : Nat)
    (totals : List BlockTotal) : Option BlockTotal :=
  let dt := currentDate + (blockHeight - s.currentBlockHeight) * 10 * 60
  let vested : Int :=
    if blockHeight ∈ s.vestingBlockHeights then
      s.totalVestedAsOf blockHeight s.currentBlockHeight
    else
      ((totals.getLast?).map BlockTotal.vested_micro_stx).getD 0
  let queriedRes : Option Int :=
    if blockHeight ∈ s.lockTransferBlockHeights ∨ blockHeight = s.currentBlockHeight then
      some (s.netUnlockedBalanceAsOf blockHeight)
    else
      (totals.getLast?).map BlockTotal.queried_micro_stx
  queriedRes.map fun queried =>
    { block_height := blockHeight
      queried_micro_stx := queried
      vested_micro_stx := vested
      total_calculated := queried + vested
      date_time := dt }

/-- The accumulator loop (index.ts lines 64-93): `fuel` counts the remaining
iterations, `blockHeight` is the loop variable, `totals` the accumulated
array.  A `none` from `stepEntry` (the JavaScript crash) aborts the loop. -/
def buildTotals (s : Store) (currentDate : Nat) :
    Nat → Nat → List BlockTotal → Option (List BlockTotal)
  | 0, _, totals => some totals
  | fuel + 1, blockHeight, totals =>
    match stepEntry s currentDate blockHeight totals with
    | none => none
    | some e => buildTotals s currentDate fuel (blockHeight + 1) (totals ++ [e])

/-- The horizon `Math.max(lockTransferBlockHeights.slice(-1)[0], vestingBlockHeights.slice(-1)[0]) + 5`
(index.ts line 60).  `none` models the `NaN` produced when either list is
empty (`slice(-1)[0]` is `undefined`). -/
def lastBlockHeightOfStore (s : Store) : Option Nat :=
  match s.lockTransferBlockHeights.getLast?, s.vestingBlockHeights.getLast? with
  | some a, some b => some (max a b + 5)
  | _, _ => none

/-- Number of iterations of `for (blockHeight = current; blockHeight < last; blockHeight++)`.
With a `NaN` bound the comparison is always false, hence zero iterations. -/
def loopFuel (s : Store) : Nat :=
  (lastBlockHeightOfStore s).elim 0 (fun last => last - s.currentBlockHeight)

/-- The full accumulator phase: the `totals` array as it stands after the
loop, or `none` on the JavaScript crash. -/
def runTotals (s : Store) (currentDate : Nat) : Option (List BlockTotal) :=
  buildTotals s currentDate (loopFuel s) s.currentBlockHeight []

/-- The per-pair sanity checks of index.ts lines 97-105:
`block_height` increments by exactly 1 and `total_calculated` never
decreases, over every adjacent pair. -/
def adjacentChecks : List BlockTotal → Bool
  | [] => true
  | [_] => true
  | a :: b :: rest =>
    (b.block_height == a.block_height + 1
      && decide (a.total_calculated ≤ b.total_calculated))
      && adjacentChecks (b :: rest)

/-- The sanity checks of index.ts lines 96-105.  On an empty array the
JavaScript reads `totals[0].block_height` of `undefined` and crashes; either
way the run aborts, embedded as `false`. -/
def validate (currentBlockHeight : Nat) : List BlockTotal → Bool
  | [] => false
  | t0 :: rest =>
    (t0.block_height == currentBlockHeight) && adjacentChecks (t0 :: rest)

/-- JavaScript `totals.splice(i, 1)`: remove the element at index `i`. -/
def spliceAt (l : List BlockTotal) (i : Nat) : List BlockTotal :=
  l.take i ++ l.drop (i + 1)

/-- The backward pruning loop of index.ts lines 108-112, with loop counter
`i` counting down: at counter `i ≥ 1` compare `totals[i]` with
`totals[i - 1]` and splice out index `i` when the totals coincide. -/
def pruneFrom (l : List BlockTotal) : Nat → List BlockTotal
  | 0 => l
  | i + 1 =>
    let next :=
      match l[i + 1]?, l[i]? with
      | some a, some b =>
        if a.total_calculated = b.total_calculated then spliceAt l (i + 1) else l
      | _, _ => l
    pruneFrom next i

/-- The pruning pass: the loop starts at `i = totals.length - 1`. -/
def prune (l : List BlockTotal) : List BlockTotal :=
  pruneFrom l (l.length - 1)

/-- JavaScript `s.slice(0, -n)` on a string: all but the last `n`
characters (empty when the string is no longer than `n`). -/
def jsSliceDropLast (s : String) (n : Nat) : String :=
  s.take (s.length - n)

/-- JavaScript `s.slice(-n)` on a string: the last `n` characters (the whole
string when it is no longer than `n`). -/
def jsSliceLast (s : String) (n : Nat) : String :=
  s.drop (s.length - n)

/-- JavaScript `s.padStart(n, c)`. -/
def padStart (s : String) (n : Nat) (c : Char) : String :=
  String.mk (List.replicate (n - s.length) c) ++ s

/-- The regex `replace(/\B(?=(\d{3})+(?!\d))/g, ',')` on a digit list: a comma goes
between two digits whenever the number of digits remaining to the right is a
positive multiple of three. -/
def groupDigits : List Char → List Char
  | [] => []
  | c :: rest =>
    if rest.length % 3 == 0 && rest.length != 0 then
      c :: ',' :: groupDigits rest
    else
      c :: groupDigits rest

/-- The thousands-separator replace, on an optionally minus-signed digit
string (the shape of every `BigInt.toString()`); `\B` never matches between
the sign and the first digit. -/
def groupThousands (s : String) : String :=
  match s.data with
  | '-' :: rest => String.mk ('-' :: groupDigits rest)
  | l => String.mk (groupDigits l)

/-- index.ts lines 114-116: `total.toString().slice(0, -6)` with thousands
separators, the rendering compared against the hard-coded final supply. -/
def finalSupplyStr (n : Int) : String :=
  groupThousands (jsSliceDropLast (toString n) 6)

/-- index.ts lines 124-126: the inline CSV decimal rendering,
`toString().slice(0, -6) ++ "." ++ toString().slice(-6)` with no padding. -/
def stxDecimalStr (n : Int) : String :=
  jsSliceDropLast (toString n) 6 ++ "." ++ jsSliceLast (toString n) 6

/-- Function `microStxToStx` from the variant source file: pad the digit string to at
least 7 characters with zeros, then split 6 from the right. -/
def microStxToStx (microStx : String) : String :=
  let padded := padStart microStx 7 '0'
  jsSliceDropLast padded 6 ++ "." ++ jsSliceLast padded 6

/-- One CSV data row (index.ts line 127); the ISO timestamp is rendered via
its injective epoch argument. -/
def csvRow (e : BlockTotal) : String :=
  toString e.block_height ++ "," ++ toString e.total_calculated ++ ","
    ++ stxDecimalStr e.total_calculated ++ "," ++ toString e.date_time ++ "\r\n"

/-- The whole CSV artifact (header line plus one row per retained entry). -/
def csvOutput (l : List BlockTotal) : String :=
  "block_height,unlocked_micro_stx,unlocked_stx,estimated_time\r\n"
    ++ String.join (l.map csvRow)

/-- The full pipeline of `run` in index.ts: accumulate, validate, prune,
check the final supply constant, emit CSV.  Every JavaScript abort
(assertion failure or crash) is an `Except.error`; the CSV is only produced
on the fully successful path. -/
def run (s : Store) (currentDate : Nat) : Except String String :=
  match runTotals s currentDate with
  | none => Except.error ("TypeError: cannot read property of undefined")
  | some totals =>
    if validate s.currentBlockHeight totals then
      let pruned := prune totals
      match pruned.getLast? with
      | none => Except.error ("TypeError: cannot read property of undefined")
      | some last =>
        if finalSupplyStr last.total_calculated = "1,352,464,598" then
          Except.ok (csvOutput pruned)
        else
          Except.error ("incorrect final unlocked balance")
    else
      Except.error ("assertion failed")

/-- Whether the run completed without aborting. -/
def runOk (s : Store) (currentDate : Nat) : Bool :=
  match run s currentDate with
  | Except.ok _ => true
  | Except.error _ => false

/-- The final-supply rendering the assertion at index.ts line 118 inspects:
the pruned series' last total, sliced and comma-grouped. -/
def finalRendered (s : Store) (currentDate : Nat) : Option String :=
  (runTotals s currentDate).bind fun totals =>
    ((prune totals).getLast?).map fun e => finalSupplyStr e.total_calculated

/-- The conditions the sanity checks test, as a proposition: the sequence is
non-empty with first block height equal to the seed height, and every
adjacent pair increments the height by exactly 1 with a non-decreasing
total. -/
def ValidSeq (currentBlockHeight : Nat) (totals : List BlockTotal) : Prop :=
  (∃ t0 rest, totals = t0 :: rest ∧ t0.block_height = currentBlockHeight) ∧
    List.Chain' (fun a b => b.block_height = a.block_height + 1 ∧
      a.total_calculated ≤ b.total_calculated) totals

/-- Carry-forward correctness for one adjacent pair of produced entries:
whenever the later entry's height is neither a vesting-release height nor a
lock-transfer-unlock height nor the initial height, all three monetary
components are carried over unchanged from the earlier entry. -/
def carryOk (s : Store) (a b : BlockTotal) : Prop :=
  b.block_height ∉ s.vestingBlockHeights →
    b.block_height ∉ s.lockTransferBlockHeights →
      b.block_height ≠ s.currentBlockHeight →
        b.queried_micro_stx = a.queried_micro_stx ∧
          b.vested_micro_stx = a.vested_micro_stx ∧
          b.total_calculated = a.total_calculated

/-- The store-determined part of an entry: everything except the wall-clock
derived `date_time`. -/
def strip (e : BlockTotal) : Nat × Int × Int × Int :=
  (e.block_height, e.queried_micro_stx, e.vested_micro_stx, e.total_calculated)

/-- Neighbour filter: drop each entry whose total equals the total of its
immediate predecessor in the original sequence (`p` is the running
predecessor).  This is the characterization of the backward splice loop the
bridge lemmas below establish. -/
def dropEqNeighbor (p : BlockTotal) : List BlockTotal → List BlockTotal
  | [] => []
  | b :: rest =>
    if b.total_calculated = p.total_calculated then dropEqNeighbor b rest
    else b :: dropEqNeighbor b rest

/-- Neighbour-filtered sequence: always keep the head, then drop entries
equal in total to their original immediate predecessor. -/
def pruneNeighbor : List BlockTotal → List BlockTotal
  | [] => []
  | a :: rest => a :: dropEqNeighbor a rest

/-- Modelled from the spec refinement wording: a single forward scan that
retains an entry only if its `total` differs from the previously retained
entry's `total` (`last` is the most recently retained entry). -/
def pruneForwardAux (last : BlockTotal) : List BlockTotal → List BlockTotal
  | [] => []
  | b :: rest =>
    if b.total_calculated = last.total_calculated then pruneForwardAux last rest
    else b :: pruneForwardAux b rest

/-- Modelled from the spec refinement wording: the forward-scan pruning, the
first entry always retained. -/
def pruneForward : List BlockTotal → List BlockTotal
  | [] => []
  | a :: rest => a :: pruneForwardAux a rest

/-- A store on which the whole pipeline succeeds: one lock-transfer unlock
of 1,352,464,597,000,000 micro-STX visible from the start, one vesting
release of 1,000,000 micro-STX at block 11, so the final supply matches the
hard-coded constant. -/
def storeA : Store :=
  { currentBlockHeight := 10
    vestingBlockHeights := [11]
    lockTransferBlockHeights := [10]
    totalVestedAsOf := fun _ _ => 1000000
    netUnlockedBalanceAsOf := fun _ => 1352464597000000 }

/-- A store whose series validates but whose final supply is not the
hard-coded constant. -/
def storeBadSupply : Store :=
  { currentBlockHeight := 10
    vestingBlockHeights := [11]
    lockTransferBlockHeights := [10]
    totalVestedAsOf := fun _ _ => 0
    netUnlockedBalanceAsOf := fun _ => 5 }

/-- A store whose produced series has a decreasing total (the net unlocked
balance shrinks at block 11), so the sanity checks fail. -/
def storeDecreasing : Store :=
  { currentBlockHeight := 10
    vestingBlockHeights := [11]
    lockTransferBlockHeights := [10, 11]
    totalVestedAsOf := fun _ _ => 0
    netUnlockedBalanceAsOf := fun h => if h = 10 then 100 else 50 }

/-- A sample entry with a given height and total, for concrete pruning
sequences. -/
def sampleEntry (h : Nat) (t : Int) : BlockTotal :=
  { block_height := h, queried_micro_stx := t, vested_micro_stx := 0,
    total_calculated := t, date_time := 0 }

/-! ### Lemmas about the loop body -/

theorem getLast?_cons_eq {α : Type _} : ∀ (a : α) (l : List α),
    (a :: l).getLast? = some (l.getLastD a)
  | _, [] => rfl
  | a, b :: t => by
    rw [List.getLast?_cons_cons, getLast?_cons_eq b t, List.getLastD_cons]

theorem stepEntry_block_height {s : Store} {d h : Nat} {acc : List BlockTotal}
    {e : BlockTotal} (he : stepEntry s d h acc = some e) : e.block_height = h := by
  simp only [stepEntry] at he
  obtain ⟨q, _, rfl⟩ := Option.map_eq_some'.1 he
  rfl

theorem stepEntry_total {s : Store} {d h : Nat} {acc : List BlockTotal}
    {e : BlockTotal} (he : stepEntry s d h acc = some e) :
    e.total_calculated = e.queried_micro_stx + e.vested_micro_stx := by
  simp only [stepEntry] at he
  obtain ⟨q, _, rfl⟩ := Option.map_eq_some'.1 he
  rfl

theorem stepEntry_fresh {s : Store} {d h : Nat} {acc : List BlockTotal}
    {e : BlockTotal} (he : stepEntry s d h acc = some e)
    (hc : h ∈ s.lockTransferBlockHeights ∨ h = s.currentBlockHeight) :
    e.queried_micro_stx = s.netUnlockedBalanceAsOf h := by
  simp only [stepEntry] at he
  rw [if_pos hc] at he
  obtain ⟨q, hq, rfl⟩ := Option.map_eq_some'.1 he
  cases hq
  rfl

theorem stepEntry_carry {s : Store} {d h : Nat} {acc : List BlockTotal}
    {e : BlockTotal} (he : stepEntry s d h acc = some e)
    (hl : h ∉ s.lockTransferBlockHeights) (hcur : h ≠ s.currentBlockHeight) :
    ∃ a, acc.getLast? = some a ∧ e.queried_micro_stx = a.queried_micro_stx ∧
      (h ∉ s.vestingBlockHeights → e.vested_micro_stx = a.vested_micro_stx) := by
  have hcond : ¬ (h ∈ s.lockTransferBlockHeights ∨ h = s.currentBlockHeight) := by
    rintro (h1 | h2)
    exacts [hl h1, hcur h2]
  simp only [stepEntry] at he
  rw [if_neg hcond] at he
  obtain ⟨q, hq, rfl⟩ := Option.map_eq_some'.1 he
  obtain ⟨a, ha, rfl⟩ := Option.map_eq_some'.1 hq
  refine ⟨a, ha, rfl, fun hv => ?_⟩
  show (if h ∈ s.vestingBlockHeights then s.totalVestedAsOf h s.currentBlockHeight
    else ((acc.getLast?).map BlockTotal.vested_micro_stx).getD 0) = a.vested_micro_stx
  rw [if_neg hv, ha]
  rfl

theorem stepEntry_isSome {s : Store} {d h : Nat} {acc : List BlockTotal}
    (hne : acc ≠ [] ∨ h = s.currentBlockHeight) :
    (stepEntry s d h acc).isSome = true := by
  simp only [stepEntry]
  by_cases hc : h ∈ s.lockTransferBlockHeights ∨ h = s.currentBlockHeight
  · rw [if_pos hc]
    rfl
  · have hnil : acc ≠ [] := by
      rcases hne with hne | hcur
      · exact hne
      · exact absurd (Or.inr hcur) hc
    rw [if_neg hc]
    cases hq : acc.getLast? with
    | none => exact absurd (List.getLast?_eq_none_iff.1 hq) hnil
    | some a => rfl

theorem buildTotals_ne_nil_isSome (s : Store) (d : Nat) :
    ∀ (fuel h : Nat) (acc : List BlockTotal), acc ≠ [] →
      (buildTotals s d fuel h acc).isSome = true
  | 0, _, _, _ => rfl
  | fuel + 1, h, acc, hne => by
    simp only [buildTotals]
    obtain ⟨e, he⟩ := Option.isSome_iff_exists.1 (stepEntry_isSome (Or.inl hne))
    rw [he]
    exact buildTotals_ne_nil_isSome s d fuel (h + 1) (acc ++ [e]) (by simp)

theorem runTotals_isSome (s : Store) (d : Nat) : (runTotals s d).isSome = true := by
  unfold runTotals
  cases hf : loopFuel s with
  | zero => rfl
  | succ k =>
    simp only [buildTotals]
    obtain ⟨e, he⟩ := Option.isSome_iff_exists.1
      (@stepEntry_isSome s d s.currentBlockHeight [] (Or.inr rfl))
    rw [he]
    exact buildTotals_ne_nil_isSome s d k _ ([] ++ [e]) (by simp)

theorem stepEntry_fresh_bh {s : Store} {d h : Nat} {acc : List BlockTotal}
    {e : BlockTotal} (he : stepEntry s d h acc = some e) :
    e.block_height ∈ s.lockTransferBlockHeights ∨ e.block_height = s.currentBlockHeight →
      e.queried_micro_stx = s.netUnlockedBalanceAsOf e.block_height := by
  rw [stepEntry_block_height he]
  exact fun hc => stepEntry_fresh he hc

theorem buildTotals_fresh_query (s : Store) (d : Nat) :
    ∀ (fuel h : Nat) (acc res : List BlockTotal),
      (∀ e ∈ acc,
        e.block_height ∈ s.lockTransferBlockHeights ∨ e.block_height = s.currentBlockHeight →
          e.queried_micro_stx = s.netUnlockedBalanceAsOf e.block_height) →
      buildTotals s d fuel h acc = some res →
      ∀ e ∈ res,
        e.block_height ∈ s.lockTransferBlockHeights ∨ e.block_height = s.currentBlockHeight →
          e.queried_micro_stx = s.netUnlockedBalanceAsOf e.block_height
  | 0, _, _, _, hacc, hres => by
    cases hres
    exact hacc
  | fuel + 1, h, acc, res, hacc, hres => by
    simp only [buildTotals] at hres
    cases hse : stepEntry s d h acc with
    | none => rw [hse] at hres; cases hres
    | some e =>
      rw [hse] at hres
      refine buildTotals_fresh_query s d fuel (h + 1) (acc ++ [e]) res ?_ hres
      intro x hx hcond
      rcases List.mem_append.1 hx with hx | hx
      · exact hacc x hx hcond
      · rcases List.mem_singleton.1 hx with rfl
        exact stepEntry_fresh_bh hse hcond

theorem buildTotals_carry_chain (s : Store) (d : Nat) :
    ∀ (fuel h : Nat) (acc res : List BlockTotal),
      (∀ e ∈ acc, e.total_calculated = e.queried_micro_stx + e.vested_micro_stx) →
      List.Chain' (carryOk s) acc →
      buildTotals s d fuel h acc = some res →
      List.Chain' (carryOk s) res
  | 0, _, _, _, _, hch, hres => by
    cases hres
    exact hch
  | fuel + 1, h, acc, res, htot, hch, hres => by
    simp only [buildTotals] at hres
    cases hse : stepEntry s d h acc with
    | none => rw [hse] at hres; cases hres
    | some e =>
      rw [hse] at hres
      refine buildTotals_carry_chain s d fuel (h + 1) (acc ++ [e]) res ?_ ?_ hres
      · intro x hx
        rcases List.mem_append.1 hx with hx | hx
        · exact htot x hx
        · rcases List.mem_singleton.1 hx with rfl
          exact stepEntry_total hse
      · rw [List.chain'_append]
        refine ⟨hch, List.chain'_singleton e, ?_⟩
        intro x hx y hy
        have hy' : e = y := by
          simpa using hy
        cases hy'
        have hxl : acc.getLast? = some x := hx
        intro hv hl hcur
        rw [stepEntry_block_height hse] at hv hl hcur
        obtain ⟨a, ha, hq, hvf⟩ := stepEntry_carry hse hl hcur
        have hax : a = x := by
          rw [hxl] at ha
          exact (Option.some.inj ha).symm
        subst hax
        refine ⟨hq, hvf hv, ?_⟩
        rw [stepEntry_total hse, hq, hvf hv,
          htot a (List.mem_of_getLast?_eq_some hxl)]

theorem buildTotals_heights (s : Store) (d : Nat) :
    ∀ (fuel h : Nat) (acc res : List BlockTotal),
      buildTotals s d fuel h acc = some res →
      res.map BlockTotal.block_height =
        acc.map BlockTotal.block_height ++ List.range' h fuel
  | 0, h, acc, res, hres => by
    cases hres
    simp
  | fuel + 1, h, acc, res, hres => by
    simp only [buildTotals] at hres
    cases hse : stepEntry s d h acc with
    | none => rw [hse] at hres; cases hres
    | some e =>
      rw [hse] at hres
      rw [buildTotals_heights s d fuel (h + 1) (acc ++ [e]) res hres,
        List.range'_succ, List.map_append, List.append_assoc]
      simp [stepEntry_block_height hse]

theorem getLast?_range' (n h : Nat) :
    (List.range' h (n + 1)).getLast? = some (h + n) := by
  rw [List.range'_concat, List.getLast?_concat, Nat.one_mul]

theorem adjacentChecks_iff : ∀ l : List BlockTotal,
    adjacentChecks l = true ↔
      List.Chain' (fun a b => b.block_height = a.block_height + 1 ∧
        a.total_calculated ≤ b.total_calculated) l
  | [] => by simp [adjacentChecks]
  | [_] => by simp [adjacentChecks]
  | a :: b :: rest => by
    simp only [adjacentChecks, Bool.and_eq_true, beq_iff_eq, decide_eq_true_eq]
    rw [List.chain'_cons, adjacentChecks_iff (b :: rest)]

theorem validate_iff (cbh : Nat) : ∀ l : List BlockTotal,
    validate cbh l = true ↔ ValidSeq cbh l
  | [] => by simp [validate, ValidSeq]
  | t0 :: rest => by
    simp only [validate, Bool.and_eq_true, beq_iff_eq, ValidSeq]
    rw [adjacentChecks_iff]
    constructor
    · rintro ⟨h1, h2⟩
      exact ⟨⟨t0, rest, rfl, h1⟩, h2⟩
    · rintro ⟨⟨t1, r1, heq, h1⟩, h2⟩
      injection heq with e1 e2
      subst e1
      exact ⟨h1, h2⟩

/-! ### Claim theorems -/

/-- C10: the accumulator loop's unguarded read of the previous entry
(`totals[totals.length - 1]` without `?.`) never reads an undefined value:
started from the current block height, the loop always completes with a
defined result — the embedded Option access is never `none` — because the
first iteration satisfies the initial-height condition and takes the
fresh-query branch, after which the totals list stays non-empty. -/
theorem claim10_prev_entry_defined (s : Store) (d : Nat) :
    (runTotals s d).isSome = true :=
  runTotals_isSome s d

/-- C6: every entry produced by the accumulator loop whose height is a
lock-transfer-unlock height, or is the initial height (the very first step),
has its queried component equal to a fresh `net_unlocked_balance_as_of`
query at that height; the fresh result is never discarded or overwritten by
the carried-forward previous value. -/
theorem claim6_fresh_query (s : Store) (d : Nat) (res : List BlockTotal)
    (hres : runTotals s d = some res) :
    ∀ e ∈ res,
      e.block_height ∈ s.lockTransferBlockHeights ∨ e.block_height = s.currentBlockHeight →
        e.queried_micro_stx = s.netUnlockedBalanceAsOf e.block_height :=
  buildTotals_fresh_query s d (loopFuel s) s.currentBlockHeight [] res (by simp) hres

/-- Witness for C6 at the concrete store `storeA`: the first produced entry
is at a queried height and carries the freshly queried balance. -/
theorem claim6_fresh_query_witness :
    ({ block_height := 10, queried_micro_stx := 1352464597000000,
        vested_micro_stx := 0, total_calculated := 1352464597000000,
        date_time := 0 } : BlockTotal).queried_micro_stx
      = storeA.netUnlockedBalanceAsOf 10 :=
  claim6_fresh_query storeA 0 ((runTotals storeA 0).getD []) (by decide) _
    (by decide) (by decide)

/-- C1: carry-forward correctness — in the produced sequence, whenever an
entry's height is neither a vesting-release height nor a
lock-transfer-unlock height nor the initial height, its queried component,
its vested component, and its total all equal those of the immediately
preceding entry. -/
theorem claim1_carry_forward (s : Store) (d : Nat) (res : List BlockTotal)
    (hres : runTotals s d = some res) :
    List.Chain' (carryOk s) res :=
  buildTotals_carry_chain s d (loopFuel s) s.currentBlockHeight [] res
    (by simp) List.chain'_nil hres

/-- Witness for C1 at the concrete store `storeA`, whose run produces four
pure carry-forward entries (heights 12 through 15). -/
theorem claim1_carry_forward_witness :
    List.Chain' (carryOk storeA) ((runTotals storeA 0).getD []) :=
  claim1_carry_forward storeA 0 ((runTotals storeA 0).getD []) (by decide)

/-- C2: the sanity checks pass exactly when the first entry's block height
equals the seed height and every adjacent pair increments the height by
exactly 1 with a non-decreasing total; and when they fail on the produced
sequence, the run aborts and produces no output. -/
theorem claim2_validator (cbh : Nat) (totals : List BlockTotal) (s : Store) (d : Nat) :
    (validate cbh totals = true ↔ ValidSeq cbh totals) ∧
      (runTotals s d = some totals → validate s.currentBlockHeight totals = false →
        runOk s d = false) := by
  refine ⟨validate_iff cbh totals, fun hrt hv => ?_⟩
  unfold runOk run
  rw [hrt]
  simp [hv]

/-- Witness for C2 at the concrete store `storeDecreasing`, whose produced
series has a decreasing total: validation fails and the run aborts. -/
theorem claim2_validator_witness :
    validate 10 ((runTotals storeDecreasing 0).getD []) = false ∧
      runOk storeDecreasing 0 = false :=
  ⟨by decide,
    (claim2_validator 10 ((runTotals storeDecreasing 0).getD []) storeDecreasing 0).2
      (by decide) (by decide)⟩

/-- Counterexample for C5: at `storeA` the last lock-transfer height is 10
and the last vesting height is 11, so the claimed terminal visited height is
`max 10 11 + 5 = 16`; but the loop bound is exclusive and the last visited
height is 15. -/
theorem claim5_counterexample :
    storeA.lockTransferBlockHeights.getLast? = some 10 ∧
      storeA.vestingBlockHeights.getLast? = some 11 ∧
      ((runTotals storeA 0).bind List.getLast?).map BlockTotal.block_height = some 15 ∧
      (15 : Nat) ≠ max 10 11 + 5 := by
  decide

/-- C5 (amended): the accumulator visits block heights in strictly
increasing order, one at a time, starting at the current block height; the
exclusive loop bound is `max(last lock height, last vesting height) + 5`,
so the terminal (last visited) height is `max(...) + 4`. -/
theorem claim5_terminal_amended (s : Store) (d : Nat) (la lv : Nat)
    (hl : s.lockTransferBlockHeights.getLast? = some la)
    (hv : s.vestingBlockHeights.getLast? = some lv)
    (hc : s.currentBlockHeight < max la lv + 5) :
    (runTotals s d).map (List.map BlockTotal.block_height)
        = some (List.range' s.currentBlockHeight (max la lv + 5 - s.currentBlockHeight)) ∧
      ((runTotals s d).bind List.getLast?).map BlockTotal.block_height
        = some (max la lv + 4) := by
  have hlast : lastBlockHeightOfStore s = some (max la lv + 5) := by
    unfold lastBlockHeightOfStore
    rw [hl, hv]
  have hfuel : loopFuel s = max la lv + 5 - s.currentBlockHeight := by
    unfold loopFuel
    rw [hlast]
    rfl
  obtain ⟨res, hres⟩ := Option.isSome_iff_exists.1 (runTotals_isSome s d)
  have hh := buildTotals_heights s d (loopFuel s) s.currentBlockHeight [] res hres
  rw [List.map_nil, List.nil_append, hfuel] at hh
  obtain ⟨k, hk⟩ : ∃ k, max la lv + 5 - s.currentBlockHeight = k + 1 :=
    ⟨max la lv + 4 - s.currentBlockHeight, by omega⟩
  constructor
  · rw [hres, Option.map_some', hh]
  · rw [hres]
    show (res.getLast?).map BlockTotal.block_height = some (max la lv + 4)
    rw [← List.getLast?_map, hh, hk, getLast?_range']
    congr 1
    omega

/-- Witness for the amended C5 at the concrete store `storeA`. -/
theorem claim5_terminal_amended_witness :
    (runTotals storeA 0).map (List.map BlockTotal.block_height)
        = some (List.range' storeA.currentBlockHeight
            (max 10 11 + 5 - storeA.currentBlockHeight)) ∧
      ((runTotals storeA 0).bind List.getLast?).map BlockTotal.block_height
        = some (max 10 11 + 4) :=
  claim5_terminal_amended storeA 0 10 11 (by decide) (by decide) (by decide)

/-! ### The pruning pass: bridge from the backward splice loop to the
neighbour filter -/

theorem dropEqNeighbor_congr {p q : BlockTotal}
    (hpq : p.total_calculated = q.total_calculated) :
    ∀ l, dropEqNeighbor p l = dropEqNeighbor q l
  | [] => rfl
  | b :: rest => by
    simp only [dropEqNeighbor]
    rw [hpq]

theorem dropEqNeighbor_append (ys : List BlockTotal) :
    ∀ (xs : List BlockTotal) (a : BlockTotal),
      dropEqNeighbor a (xs ++ ys)
        = dropEqNeighbor a xs ++ dropEqNeighbor (xs.getLastD a) ys
  | [], a => by
    simp [dropEqNeighbor, List.getLastD]
  | b :: rest, a => by
    simp only [List.cons_append, dropEqNeighbor, List.getLastD_cons, List.append_eq]
    by_cases hb : b.total_calculated = a.total_calculated
    · rw [if_pos hb, if_pos hb, dropEqNeighbor_append ys rest b]
    · rw [if_neg hb, if_neg hb, dropEqNeighbor_append ys rest b, List.cons_append]

theorem pruneFrom_bridge :
    ∀ (i : Nat) (a : BlockTotal) (rest suf : List BlockTotal),
      rest.length = i →
      pruneFrom (a :: (rest ++ dropEqNeighbor (rest.getLastD a) suf)) i
        = a :: dropEqNeighbor a (rest ++ suf)
  | 0, a, rest, suf, hlen => by
    rw [List.length_eq_zero.1 hlen]
    rfl
  | i + 1, a, rest, suf, hlen => by
    rcases List.eq_nil_or_concat rest with rfl | ⟨rest', x, rfl⟩
    · cases hlen
    · simp only [List.concat_eq_append] at hlen ⊢
      have hlen' : rest'.length = i := by
        simpa using hlen
      rw [List.getLastD_concat]
      have hshape : a :: ((rest' ++ [x]) ++ dropEqNeighbor x suf)
          = (a :: rest') ++ ([x] ++ dropEqNeighbor x suf) := by
        simp
      rw [hshape]
      simp only [pruneFrom]
      have hlenA : (a :: rest').length = i + 1 := by
        simp [hlen']
      have hhi : ((a :: rest') ++ ([x] ++ dropEqNeighbor x suf))[i + 1]? = some x := by
        rw [List.getElem?_append_right (le_of_eq hlenA)]
        simp [hlenA]
      have hlo : ((a :: rest') ++ ([x] ++ dropEqNeighbor x suf))[i]? =
          some (rest'.getLastD a) := by
        rw [List.getElem?_append_left (by omega)]
        have h1 := List.getLast?_eq_getElem? (a :: rest')
        rw [getLast?_cons_eq, hlenA] at h1
        simpa using h1.symm
      rw [hhi, hlo]
      dsimp only
      by_cases hxy : x.total_calculated = (rest'.getLastD a).total_calculated
      · rw [if_pos hxy]
        have hsplice : spliceAt ((a :: rest') ++ ([x] ++ dropEqNeighbor x suf)) (i + 1)
            = (a :: rest') ++ dropEqNeighbor x suf := by
          unfold spliceAt
          rw [List.take_left' hlenA]
          have hregroup : (a :: rest') ++ ([x] ++ dropEqNeighbor x suf)
              = ((a :: rest') ++ [x]) ++ dropEqNeighbor x suf := by
            simp
          rw [hregroup, List.drop_left' (by simp [hlen'])]
        rw [hsplice, dropEqNeighbor_congr hxy (l := suf), List.cons_append,
          pruneFrom_bridge i a rest' suf hlen']
        congr 1
        have hx : dropEqNeighbor (rest'.getLastD a) (x :: suf)
            = dropEqNeighbor (rest'.getLastD a) suf := by
          simp only [dropEqNeighbor]
          rw [if_pos hxy, dropEqNeighbor_congr hxy (l := suf)]
        have hassoc : rest' ++ [x] ++ suf = rest' ++ (x :: suf) := by
          simp
        rw [hassoc, dropEqNeighbor_append (x :: suf) rest' a, hx,
          ← dropEqNeighbor_append suf rest' a]
      · rw [if_neg hxy]
        have hform : [x] ++ dropEqNeighbor x suf
            = dropEqNeighbor (rest'.getLastD a) (x :: suf) := by
          simp only [dropEqNeighbor]
          rw [if_neg hxy]
          rfl
        rw [hform, List.cons_append, pruneFrom_bridge i a rest' (x :: suf) hlen']
        congr 1
        simp

theorem prune_eq_pruneNeighbor : ∀ l : List BlockTotal, prune l = pruneNeighbor l
  | [] => rfl
  | a :: rest => by
    show pruneFrom (a :: rest) ((a :: rest).length - 1) = a :: dropEqNeighbor a rest
    have h := pruneFrom_bridge rest.length a rest [] rfl
    simp only [List.append_nil] at h
    have hd : dropEqNeighbor (rest.getLastD a) [] = [] := rfl
    rw [hd, List.append_nil] at h
    simpa using h

theorem pruneForwardAux_eq : ∀ (l : List BlockTotal) (p : BlockTotal),
    pruneForwardAux p l = dropEqNeighbor p l
  | [], _ => rfl
  | b :: rest, p => by
    simp only [pruneForwardAux, dropEqNeighbor]
    by_cases hb : b.total_calculated = p.total_calculated
    · rw [if_pos hb, if_pos hb, pruneForwardAux_eq rest p,
        dropEqNeighbor_congr hb.symm rest]
    · rw [if_neg hb, if_neg hb, pruneForwardAux_eq rest b]

theorem dropEq_chain : ∀ (l : List BlockTotal) (p : BlockTotal),
    List.Chain' (fun a b => a.total_calculated ≠ b.total_calculated)
      (p :: dropEqNeighbor p l)
  | [], p => List.chain'_singleton p
  | b :: rest, p => by
    simp only [dropEqNeighbor]
    by_cases hb : b.total_calculated = p.total_calculated
    · rw [if_pos hb]
      have ih := dropEq_chain rest b
      rw [List.chain'_cons'] at ih ⊢
      refine ⟨fun y hy => ?_, ih.2⟩
      have h2 := ih.1 y hy
      rw [← hb]
      exact h2
    · rw [if_neg hb]
      rw [List.chain'_cons]
      exact ⟨fun h => hb h.symm, dropEq_chain rest b⟩

theorem dropEq_lastD_total : ∀ (l : List BlockTotal) (p : BlockTotal),
    ((dropEqNeighbor p l).getLastD p).total_calculated
      = (l.getLastD p).total_calculated
  | [], _ => rfl
  | b :: rest, p => by
    simp only [dropEqNeighbor, List.getLastD_cons]
    by_cases hb : b.total_calculated = p.total_calculated
    · rw [if_pos hb]
      have ih := dropEq_lastD_total rest b
      cases hd : dropEqNeighbor b rest with
      | nil =>
        rw [hd] at ih
        simp only [List.getLastD] at ih ⊢
        rw [hb] at ih
        exact ih
      | cons c t =>
        rw [hd] at ih
        rw [List.getLastD_cons] at ih ⊢
        exact ih
    · rw [if_neg hb, List.getLastD_cons]
      exact dropEq_lastD_total rest b

/-- C8: the backward in-place splice pruning and the spec's forward scan
(retain an entry only if its total differs from the previously retained
entry's total) produce exactly the same sequence, on every input. -/
theorem claim8_prune_refinement (l : List BlockTotal) : prune l = pruneForward l := by
  rw [prune_eq_pruneNeighbor]
  cases l with
  | nil => rfl
  | cons a rest =>
    show a :: dropEqNeighbor a rest = a :: pruneForwardAux a rest
    rw [pruneForwardAux_eq]

/-- Counterexample for C3: with two entries of equal totals the backward
splice removes the second one, so the last entry of the pre-pruned sequence
is not retained in the pruned result. -/
theorem claim3_counterexample :
    prune [sampleEntry 0 5, sampleEntry 1 5] = [sampleEntry 0 5] ∧
      sampleEntry 1 5 ∉ prune [sampleEntry 0 5, sampleEntry 1 5] := by
  decide

/-- C3 (amended): after pruning no two adjacent retained entries share the
same total, the first entry of the pre-pruned sequence is always retained,
and the last retained entry has the same total as the last pre-pruned entry
(the last entry itself is dropped whenever its total equals its
predecessor's). -/
theorem claim3_pruning_amended (l : List BlockTotal) :
    List.Chain' (fun a b => a.total_calculated ≠ b.total_calculated) (prune l) ∧
      (prune l).head? = l.head? ∧
      ((prune l).getLast?).map BlockTotal.total_calculated
        = (l.getLast?).map BlockTotal.total_calculated := by
  rw [prune_eq_pruneNeighbor]
  cases l with
  | nil => exact ⟨List.chain'_nil, rfl, rfl⟩
  | cons a rest =>
    refine ⟨dropEq_chain rest a, rfl, ?_⟩
    show ((a :: dropEqNeighbor a rest).getLast?).map BlockTotal.total_calculated
      = ((a :: rest).getLast?).map BlockTotal.total_calculated
    rw [getLast?_cons_eq, getLast?_cons_eq, Option.map_some', Option.map_some']
    exact congrArg some (dropEq_lastD_total rest a)

/-- Counterexample for C4: on input 1352464598000000 (16 digits) splitting
6 digits from the right yields "1352464598.000000" under both renderings,
never the claimed "1352464.598000"; and the rendering inlined in index.ts
(lines 124-126) does not zero-pad, yielding ".500" instead of the claimed
"0.000500" for input 500. -/
theorem claim4_counterexample :
    microStxToStx (toString (1352464598000000 : Int)) ≠ "1352464.598000" ∧
      stxDecimalStr 1352464598000000 ≠ "1352464.598000" ∧
      stxDecimalStr 500 ≠ "0.000500" := by
  decide

/-- C4 (amended): the helper `microStxToStx` of the variant source file
zero-pads to at least 7 digits before splitting 6 digits from the right, so
1352464598000000 renders as "1352464598.000000" and 500 as "0.000500"; the
rendering inlined in index.ts omits the padding, agreeing on inputs of 7 or
more digits but yielding ".500" for 500. -/
theorem claim4_rendering_amended :
    microStxToStx (toString (1352464598000000 : Int)) = "1352464598.000000" ∧
      microStxToStx (toString (500 : Int)) = "0.000500" ∧
      stxDecimalStr 1352464598000000 = "1352464598.000000" ∧
      stxDecimalStr 500 = ".500" := by
  decide

/-- C9: the run completes successfully only if the pruned series' final
total renders (6 digits sliced off, thousands-grouped) to exactly
"1,352,464,598"; whenever that rendering is anything else the assertion
fails, the run aborts, and the CSV stage below the assertion is never
reached. -/
theorem claim9_final_supply_gate (s : Store) (d : Nat) :
    (runOk s d = true → finalRendered s d = some ("1,352,464,598")) ∧
      (∀ str, finalRendered s d = some str → str ≠ "1,352,464,598" →
        runOk s d = false) := by
  cases hrt : runTotals s d with
  | none =>
    have h1 : runOk s d = false := by
      unfold runOk run
      rw [hrt]
    have h2 : finalRendered s d = none := by
      unfold finalRendered
      rw [hrt]
      rfl
    refine ⟨fun hok => ?_, fun str hstr _ => h1⟩
    rw [h1] at hok
    exact Bool.noConfusion hok
  | some totals =>
    by_cases hval : validate s.currentBlockHeight totals = true
    · cases hgl : (prune totals).getLast? with
      | none =>
        have h1 : runOk s d = false := by
          unfold runOk run
          rw [hrt]
          simp [hval, hgl]
        refine ⟨fun hok => ?_, fun str hstr _ => h1⟩
        rw [h1] at hok
        exact Bool.noConfusion hok
      | some last =>
        by_cases hfs : finalSupplyStr last.total_calculated = "1,352,464,598"
        · have h2 : finalRendered s d = some ("1,352,464,598") := by
            unfold finalRendered
            rw [hrt]
            show ((prune totals).getLast?).map
              (fun e => finalSupplyStr e.total_calculated) = _
            rw [hgl, Option.map_some', hfs]
          refine ⟨fun _ => h2, fun str hstr hne => ?_⟩
          rw [h2] at hstr
          exact absurd (Option.some.inj hstr).symm hne
        · have h1 : runOk s d = false := by
            unfold runOk run
            rw [hrt]
            simp [hval, hgl, hfs]
          refine ⟨fun hok => ?_, fun str hstr _ => h1⟩
          rw [h1] at hok
          exact Bool.noConfusion hok
    · have h1 : runOk s d = false := by
        unfold runOk run
        rw [hrt]
        simp [hval]
      refine ⟨fun hok => ?_, fun str hstr _ => h1⟩
      rw [h1] at hok
      exact Bool.noConfusion hok

/-- Witness for C9: at `storeA` the run succeeds and the final rendering is
the hard-coded constant; at `storeBadSupply` the rendering differs and the
run aborts. -/
theorem claim9_final_supply_gate_witness :
    finalRendered storeA 0 = some ("1,352,464,598") ∧
      runOk storeBadSupply 0 = false :=
  ⟨(claim9_final_supply_gate storeA 0).1 (by decide),
    (claim9_final_supply_gate storeBadSupply 0).2 ("") (by decide) (by decide)⟩

/-- Counterexample for C7: over the unchanged store `storeA`, two runs with
different wall-clock readings both succeed yet produce different CSV bytes
(the estimated_time column depends on the clock, not on the store). -/
theorem claim7_counterexample :
    runOk storeA 0 = true ∧ runOk storeA 1 = true ∧
      (run storeA 0).toOption ≠ (run storeA 1).toOption := by
  decide

/-! ### Clock-independence of the store-determined fields -/

theorem strip_bh {a b : BlockTotal} (h : strip a = strip b) :
    a.block_height = b.block_height :=
  congrArg Prod.fst h

theorem strip_q {a b : BlockTotal} (h : strip a = strip b) :
    a.queried_micro_stx = b.queried_micro_stx :=
  congrArg (fun p => p.2.1) h

theorem strip_v {a b : BlockTotal} (h : strip a = strip b) :
    a.vested_micro_stx = b.vested_micro_stx :=
  congrArg (fun p => p.2.2.1) h

theorem strip_t {a b : BlockTotal} (h : strip a = strip b) :
    a.total_calculated = b.total_calculated :=
  congrArg (fun p => p.2.2.2) h

theorem stepEntry_strip (s : Store) (d1 d2 hh : Nat) {acc1 acc2 : List BlockTotal}
    (hacc : acc1.map strip = acc2.map strip) :
    (stepEntry s d1 hh acc1).map strip = (stepEntry s d2 hh acc2).map strip := by
  have hgl : (acc1.getLast?).map strip = (acc2.getLast?).map strip := by
    rw [← List.getLast?_map, ← List.getLast?_map, hacc]
  simp only [stepEntry]
  cases h1 : acc1.getLast? with
  | none =>
    rw [h1] at hgl
    have h2 : acc2.getLast? = none := Option.map_eq_none'.1 hgl.symm
    rw [h2]
    by_cases hc : hh ∈ s.lockTransferBlockHeights ∨ hh = s.currentBlockHeight
    · rw [if_pos hc]
      rfl
    · rw [if_neg hc]
      rfl
  | some a1 =>
    rw [h1] at hgl
    obtain ⟨a2, h2, hstrip⟩ := Option.map_eq_some'.1 hgl.symm
    rw [h2]
    by_cases hc : hh ∈ s.lockTransferBlockHeights ∨ hh = s.currentBlockHeight
    · rw [if_pos hc, if_pos hc]
      by_cases hv : hh ∈ s.vestingBlockHeights
      · rw [if_pos hv, if_pos hv]
        rfl
      · rw [if_neg hv, if_neg hv]
        simp only [Option.map_some', Option.getD_some]
        rw [strip_v hstrip]
        rfl
    · rw [if_neg hc, if_neg hc]
      by_cases hv : hh ∈ s.vestingBlockHeights
      · rw [if_pos hv, if_pos hv]
        simp only [Option.map_some']
        rw [strip_q hstrip]
        rfl
      · rw [if_neg hv, if_neg hv]
        simp only [Option.map_some', Option.getD_some]
        rw [strip_q hstrip, strip_v hstrip]
        rfl

theorem buildTotals_strip (s : Store) (d1 d2 : Nat) :
    ∀ (fuel hh : Nat) (acc1 acc2 : List BlockTotal),
      acc1.map strip = acc2.map strip →
      (buildTotals s d1 fuel hh acc1).map (List.map strip)
        = (buildTotals s d2 fuel hh acc2).map (List.map strip)
  | 0, _, acc1, acc2, hacc => by
    simp only [buildTotals, Option.map_some']
    rw [hacc]
  | fuel + 1, hh, acc1, acc2, hacc => by
    simp only [buildTotals]
    have hse := stepEntry_strip s d1 d2 hh hacc
    cases h1 : stepEntry s d1 hh acc1 with
    | none =>
      rw [h1] at hse
      have h2 : stepEntry s d2 hh acc2 = none := Option.map_eq_none'.1 hse.symm
      rw [h2]
    | some e1 =>
      rw [h1] at hse
      obtain ⟨e2, h2, hstripe⟩ := Option.map_eq_some'.1 hse.symm
      rw [h2]
      refine buildTotals_strip s d1 d2 fuel (hh + 1) (acc1 ++ [e1]) (acc2 ++ [e2]) ?_
      rw [List.map_append, List.map_append, hacc]
      simp [hstripe]

theorem adjacentChecks_strip : ∀ {l1 l2 : List BlockTotal},
    l1.map strip = l2.map strip → adjacentChecks l1 = adjacentChecks l2
  | [], [], _ => rfl
  | [], _ :: _, h => by cases h
  | _ :: _, [], h => by cases h
  | [_], [_], _ => rfl
  | [_], _ :: _ :: _, h => by
    rw [List.map_cons, List.map_cons, List.map_cons] at h
    injection h with _ h
    cases h
  | _ :: _ :: _, [_], h => by
    rw [List.map_cons, List.map_cons, List.map_cons] at h
    injection h with _ h
    cases h
  | a :: c :: t1, b :: e :: t2, h => by
    rw [List.map_cons, List.map_cons, List.map_cons, List.map_cons] at h
    injection h with h1 h
    injection h with h2 h3
    simp only [adjacentChecks]
    rw [strip_bh h1, strip_bh h2, strip_t h1, strip_t h2,
      adjacentChecks_strip (show List.map strip (c :: t1) = List.map strip (e :: t2)
        by rw [List.map_cons, List.map_cons, h2, h3])]

theorem validate_strip (cbh : Nat) : ∀ {l1 l2 : List BlockTotal},
    l1.map strip = l2.map strip → validate cbh l1 = validate cbh l2
  | [], [], _ => rfl
  | [], _ :: _, h => by cases h
  | _ :: _, [], h => by cases h
  | a :: t1, b :: t2, h => by
    have h' := h
    rw [List.map_cons, List.map_cons] at h'
    injection h' with h1 h2
    simp only [validate]
    rw [strip_bh h1, adjacentChecks_strip h]

theorem dropEqNeighbor_strip : ∀ {l1 l2 : List BlockTotal} {p1 p2 : BlockTotal},
    strip p1 = strip p2 → l1.map strip = l2.map strip →
    (dropEqNeighbor p1 l1).map strip = (dropEqNeighbor p2 l2).map strip
  | [], [], _, _, _, _ => rfl
  | [], _ :: _, _, _, _, h => by cases h
  | _ :: _, [], _, _, _, h => by cases h
  | a :: t1, b :: t2, p1, p2, hp, h => by
    rw [List.map_cons, List.map_cons] at h
    injection h with h1 h2
    simp only [dropEqNeighbor]
    by_cases ha : a.total_calculated = p1.total_calculated
    · rw [if_pos ha, if_pos (show b.total_calculated = p2.total_calculated by
        rw [← strip_t h1, ← strip_t hp]; exact ha)]
      exact dropEqNeighbor_strip h1 h2
    · rw [if_neg ha, if_neg (show ¬ b.total_calculated = p2.total_calculated by
        rw [← strip_t h1, ← strip_t hp]; exact ha)]
      rw [List.map_cons, List.map_cons, h1, dropEqNeighbor_strip h1 h2]

theorem prune_strip {l1 l2 : List BlockTotal} (h : l1.map strip = l2.map strip) :
    (prune l1).map strip = (prune l2).map strip := by
  rw [prune_eq_pruneNeighbor, prune_eq_pruneNeighbor]
  cases l1 with
  | nil =>
    cases l2 with
    | nil => rfl
    | cons b t2 => cases h
  | cons a t1 =>
    cases l2 with
    | nil => cases h
    | cons b t2 =>
      rw [List.map_cons, List.map_cons] at h
      injection h with h1 h2
      show (a :: dropEqNeighbor a t1).map strip = (b :: dropEqNeighbor b t2).map strip
      rw [List.map_cons, List.map_cons, h1, dropEqNeighbor_strip h1 h2]

/-- C7 (amended): the pipeline is a pure function of the store and the
wall-clock reading.  Over an unchanged store, two runs agree on everything
the store determines: the produced series minus its estimated timestamps,
and the success/abort status.  The emitted CSV is therefore byte-identical
exactly when the clock reading is also unchanged; with a different clock
reading it differs only in the estimated_time column. -/
theorem claim7_idempotence_amended (s : Store) (d1 d2 : Nat) :
    (runTotals s d1).map (List.map strip) = (runTotals s d2).map (List.map strip) ∧
      runOk s d1 = runOk s d2 := by
  have hrt : (runTotals s d1).map (List.map strip)
      = (runTotals s d2).map (List.map strip) :=
    buildTotals_strip s d1 d2 (loopFuel s) s.currentBlockHeight [] [] rfl
  refine ⟨hrt, ?_⟩
  unfold runOk run
  cases h1 : runTotals s d1 with
  | none =>
    rw [h1] at hrt
    have h2 : runTotals s d2 = none := by
      cases h2 : runTotals s d2 with
      | none => rfl
      | some t2 =>
        rw [h2] at hrt
        cases hrt
    rw [h2]
  | some t1 =>
    rw [h1] at hrt
    cases h2 : runTotals s d2 with
    | none =>
      rw [h2] at hrt
      cases hrt
    | some t2 =>
      rw [h2] at hrt
      simp only [Option.map_some'] at hrt
      have hm : t1.map strip = t2.map strip := Option.some.inj hrt
      have hv := validate_strip s.currentBlockHeight hm
      dsimp only
      by_cases hval : validate s.currentBlockHeight t1 = true
      · rw [if_pos hval, if_pos (hv ▸ hval)]
        have hps := prune_strip hm
        have hgl : ((prune t1).getLast?).map strip
            = ((prune t2).getLast?).map strip := by
          rw [← List.getLast?_map, ← List.getLast?_map, hps]
        cases hg1 : (prune t1).getLast? with
        | none =>
          rw [hg1] at hgl
          have hg2 : (prune t2).getLast? = none := Option.map_eq_none'.1 hgl.symm
          rw [hg2]
        | some e1 =>
          rw [hg1] at hgl
          obtain ⟨e2, hg2, hse⟩ := Option.map_eq_some'.1 hgl.symm
          rw [hg2]
          dsimp only
          have ht : e1.total_calculated = e2.total_calculated := (strip_t hse).symm
          by_cases hfs : finalSupplyStr e1.total_calculated = "1,352,464,598"
          · rw [if_pos hfs, if_pos (by rw [← ht]; exact hfs)]
          · rw [if_neg hfs, if_neg (by rw [← ht]; exact hfs)]
      · rw [if_neg hval, if_neg (fun hh => hval (hv ▸ hh))]

end Supply
